import Mathlib

/-!
# Virtual serial device: `memory/ex1/vser.c`

A shallow embedding of the character driver in `vser.c` and of the kernel
primitives it calls (`kfifo`, `atomic_t`, `fasync`, user copies), followed by
the properties of the driver.

Conventions of the embedding.

* A byte is a `Nat`; `unsigned int` values are `Nat` reduced modulo `2 ^ 32`,
  `int`/`long`/`ssize_t` results are `Int`.
* The byte queue is the kernel ring buffer `struct kfifo` (free running
  `in`/`out` counters, a mask and a data area).  Its abstract content is
  `kfifo_contents`.
* What the environment decides (the random byte, whether a user copy faults,
  how a sleep ends) is an explicit argument of the operation it influences.
* A driver entry point returns its C return value together with the new
  device state and whatever it handed to the caller or to the kernel.
* Entry points run one after another: the spin lock of the wait queue head
  serialises every access to the fifo.  A read that sleeps is resumed by the
  runs of the work item listed in its environment.
-/

namespace Vser

set_option maxRecDepth 100000

/-! ## Constants -/

/-- The `VSER_FIFO_SIZE` macro of `vser.c`. -/
def VSER_FIFO_SIZE : Nat := 32

/-- Kernel errno `EAGAIN`. -/
def EAGAIN : Int := 11

/-- Kernel errno `EFAULT`. -/
def EFAULT : Int := 14

/-- Kernel errno `EBUSY`. -/
def EBUSY : Int := 16

/-- Kernel errno `ENOTTY`. -/
def ENOTTY : Int := 25

/-- Kernel internal errno `ERESTARTSYS`. -/
def ERESTARTSYS : Int := 512

/-- Open flag `O_NONBLOCK` (octal 04000). -/
def O_NONBLOCK : Nat := 2048

/-- Poll bit `POLLIN`. -/
def POLLIN : Nat := 1

/-- Poll bit `POLLOUT`. -/
def POLLOUT : Nat := 4

/-- Poll bit `POLLRDNORM`. -/
def POLLRDNORM : Nat := 64

/-- Poll bit `POLLWRNORM`. -/
def POLLWRNORM : Nat := 256

/-! ## Machine arithmetic -/

/-- Properties of the compilation target that the C text leaves open:
whether plain `char` is signed, and the width of `long`/`size_t`/pointers. -/
structure target where
  char_signed : Bool
  bits_per_long : Nat
deriving DecidableEq, Repr

/-- Truncation to `unsigned int`. -/
def u32 (n : Nat) : Nat := n % 4294967296

/-- Subtraction of `unsigned int` values, wrapping modulo `2 ^ 32`. -/
def u32_sub (a b : Nat) : Nat := (u32 a + (4294967296 - u32 b)) % 4294967296

/-- Truncation to a 32 bit two's complement `int`. -/
def int32 (x : Int) : Int := (x + 2147483648) % 4294967296 - 2147483648

/-! ## The kernel byte fifo -/

/-- The fields of `struct __kfifo` for a fifo of bytes (`esize = 1`). -/
structure kfifo where
  in_ : Nat
  out : Nat
  mask : Nat
  data : List Nat
deriving DecidableEq, Repr

/-- Model of `kfifo_alloc` for a size that is a power of two: both counters
start at zero and the data area holds whatever the allocator returned. -/
def kfifo_alloc (size : Nat) (heap : Nat → Nat) : kfifo :=
  { in_ := 0, out := 0, mask := size - 1, data := (List.range size).map heap }

/-- Model of `kfifo_len`: `in - out` in `unsigned int` arithmetic. -/
def kfifo_len (f : kfifo) : Nat := u32_sub f.in_ f.out

/-- Model of `kfifo_is_empty`: `in == out`. -/
def kfifo_is_empty (f : kfifo) : Bool := decide (f.in_ = f.out)

/-- Model of `kfifo_is_full`: `kfifo_len > mask`. -/
def kfifo_is_full (f : kfifo) : Bool := decide (kfifo_len f > f.mask)

/-- Model of `kfifo_unused`: `(mask + 1) - (in - out)`. -/
def kfifo_unused (f : kfifo) : Nat := u32_sub (f.mask + 1) (u32_sub f.in_ f.out)

/-- Model of `memcpy(dst + off, src, src.length)` on a byte area. -/
def memcpy (dst : List Nat) (off : Nat) (src : List Nat) : List Nat :=
  dst.take off ++ src ++ dst.drop (off + src.length)

/-- Model of `kfifo_copy_in`: the first part of `src` goes to the end of the
data area starting at `off & mask`, the rest wraps to its beginning. -/
def kfifo_copy_in (f : kfifo) (src : List Nat) (len off : Nat) : kfifo :=
  let size := f.mask + 1
  let off := off &&& f.mask
  let l := min len (size - off)
  let data1 := memcpy f.data off (src.take l)
  let data2 := memcpy data1 0 ((src.drop l).take (len - l))
  { f with data := data2 }

/-- Model of `kfifo_in`: stores at most `kfifo_unused` bytes, advances `in`,
returns the number of bytes stored. -/
def kfifo_in (f : kfifo) (buf : List Nat) (len : Nat) : kfifo × Nat :=
  let l := kfifo_unused f
  let len := if len > l then l else len
  let f1 := kfifo_copy_in f buf len f.in_
  ({ f1 with in_ := u32 (f1.in_ + len) }, len)

/-- Model of `kfifo_copy_out`: `len` bytes starting at `off & mask`, wrapping
at the end of the data area. -/
def kfifo_copy_out (f : kfifo) (len off : Nat) : List Nat :=
  let size := f.mask + 1
  let off := off &&& f.mask
  let l := min len (size - off)
  (f.data.drop off).take l ++ f.data.take (len - l)

/-- Model of `kfifo_out_peek`: copies at most `kfifo_len` bytes out. -/
def kfifo_out_peek (f : kfifo) (len : Nat) : List Nat × Nat :=
  let l := u32_sub f.in_ f.out
  let len := if len > l then l else len
  (kfifo_copy_out f len f.out, len)

/-- Model of `kfifo_out`: peeks, then advances `out` by the number of bytes
copied.  Returns the new fifo, the bytes copied and their number. -/
def kfifo_out (f : kfifo) (len : Nat) : kfifo × List Nat × Nat :=
  let r := kfifo_out_peek f len
  ({ f with out := u32 (f.out + r.2) }, r.1, r.2)

/-- The abstract queue content of a fifo: the bytes between `out` and `in`,
oldest first. -/
def kfifo_contents (f : kfifo) : List Nat :=
  (List.range (kfifo_len f)).map (fun i => f.data.getD ((f.out + i) % (f.mask + 1)) 0)

/-- Representation invariant of the driver's fifo: 32 byte data area, both
counters are `unsigned int` values, and at most 32 bytes are held. -/
def kfifo_wf (f : kfifo) : Prop :=
  f.mask = 31 ∧ f.data.length = 32 ∧ f.in_ < 4294967296 ∧ f.out < 4294967296 ∧
    kfifo_len f ≤ 32

instance (f : kfifo) : Decidable (kfifo_wf f) := by
  unfold kfifo_wf; infer_instance

/-! ## Device state -/

/-- Modelled from the spec: `struct option` is declared in the header `vser.h`,
which is not among the sources; the line format record has the three fields
`datab`, `parity`, `stopb` that `vser_init` assigns. -/
structure option where
  datab : Nat
  parity : Nat
  stopb : Nat
deriving DecidableEq, Repr

/-- Modelled from the spec: the command codes of the control channel come from
the header `vser.h`, which is not among the sources; they are parameters of
`vser_ioctl`. -/
structure vser_h where
  VS_MAGIC : Nat
  VS_SET_BAUD : Nat
  VS_GET_BAUD : Nat
  VS_SET_FFMT : Nat
  VS_GET_FFMT : Nat
deriving DecidableEq, Repr

/-- The state carrying fields of `struct vser_dev`.  `fapp` is the list of
files registered for `SIGIO`; the wait queue head and the `cdev` hold no data
of the driver. -/
structure vser_dev where
  fifo : kfifo
  fapp : List Nat
  available : Int
  baud : Nat
  opt : option
deriving DecidableEq, Repr

/-- The part of `struct file` the driver looks at: the identity of the open
file and its `f_flags`. -/
structure file where
  ident : Nat
  f_flags : Nat
deriving DecidableEq, Repr

/-- What `vser_work` hands to the rest of the kernel. -/
inductive event where
  | printk_kfifo_in_failure : event
  | wake_up_interruptible : event
  | kill_fasync (listeners : List Nat) : event
deriving DecidableEq, Repr

/-- How a sleep in `wait_event_interruptible_locked` ends: a signal becomes
pending while the queue is still empty, or the work item has run (once, and
possibly more often before the sleeper gets the lock back), each run with its
own random byte. -/
inductive wait_result where
  | signal : wait_result
  | woken (rnd : Nat) (more : List Nat) : wait_result
deriving DecidableEq, Repr

/-- The environment of one `vser_read`: how its sleep would end and how many
bytes `copy_to_user` fails to copy. -/
structure read_env where
  wait : wait_result
  fault : Nat
deriving DecidableEq, Repr

/-- The outcome of one `vser_read`: return value, new device state, the bytes
that reached the caller's buffer and whether the caller slept. -/
structure read_result where
  ret : Int
  dev : vser_dev
  to_user : List Nat
  slept : Bool
deriving DecidableEq, Repr

/-- One `struct iovec` of a vectored read: its length and the environment of
the read into it. -/
structure iovec where
  iov_len : Nat
  env : read_env
deriving DecidableEq, Repr

/-- What the user memory does during one `vser_ioctl`: reading a
`struct option` from the address `arg` succeeds with a value or faults leaving
the destination with some bytes, and writing to `arg` faults or not. -/
structure ioctl_env where
  from_user : Except option option
  to_user_fault : Bool

/-- The outcome of one `vser_ioctl`: return value, new device state and the
record written to the caller's memory, if any. -/
structure ioctl_result where
  ret : Int
  dev : vser_dev
  to_user : Option option
deriving DecidableEq, Repr

/-! ## Kernel primitives of the session gate and of `fasync` -/

/-- Model of `atomic_dec_and_test`: decrements, tells whether the result is 0. -/
def atomic_dec_and_test (v : Int) : Int × Bool :=
  let v1 := int32 (v - 1)
  (v1, decide (v1 = 0))

/-- Model of `atomic_inc`. -/
def atomic_inc (v : Int) : Int := int32 (v + 1)

/-- Model of `fasync_helper`: adds the file to, or removes it from, the list
of registered listeners; the result is positive when the list changed. -/
def fasync_helper (filp : file) (on_ : Bool) (fapp : List Nat) : Int × List Nat :=
  if on_ then
    if filp.ident ∈ fapp then (0, fapp) else (1, filp.ident :: fapp)
  else
    if filp.ident ∈ fapp then (1, fapp.erase filp.ident) else (0, fapp)

/-- Model of `copy_to_user(buf, src, len)`: all but `fault` bytes are copied;
returns the bytes that reached the user and the number that did not. -/
def copy_to_user (src : List Nat) (len fault : Nat) : List Nat × Nat :=
  let ret := min fault len
  (src.take (len - ret), ret)

/-- The value of a `char` object holding the byte `b`. -/
def char_of_byte (t : target) (b : Nat) : Int :=
  if t.char_signed = true ∧ 128 ≤ b % 256 then ((b % 256 : Nat) : Int) - 256
  else ((b % 256 : Nat) : Int)

/-- Conversion of an `int` value to `char`. -/
def to_char (t : target) (x : Int) : Int := char_of_byte t (x % 256).toNat

/-- The byte stored in a `char` object of value `c`. -/
def byte_of_char (c : Int) : Nat := (c % 256).toNat

/-- Conversion of a `size_t` value to `ssize_t`. -/
def to_ssize (t : target) (n : Nat) : Int :=
  if n % 2 ^ t.bits_per_long < 2 ^ (t.bits_per_long - 1) then ((n % 2 ^ t.bits_per_long : Nat) : Int)
  else ((n % 2 ^ t.bits_per_long : Nat) : Int) - 2 ^ t.bits_per_long

/-- The `_IOC_TYPE` macro: bits 8 to 15 of a command code. -/
def _IOC_TYPE (cmd : Nat) : Nat := (cmd >>> 8) &&& 255

/-! ## The driver -/

/-- The state `vser_init` leaves behind when every step succeeds. -/
def vser_init (heap : Nat → Nat) : vser_dev :=
  { fifo := kfifo_alloc VSER_FIFO_SIZE heap
    fapp := []
    available := 1
    baud := 115200
    opt := { datab := 8, parity := 0, stopb := 1 } }

/-- Embedding of `vser_open`. -/
def vser_open (dev : vser_dev) (_filp : file) : Int × vser_dev :=
  let r := atomic_dec_and_test dev.available
  if r.2 then (0, { dev with available := r.1 })
  else (-EBUSY, { dev with available := atomic_inc r.1 })

/-- Embedding of `vser_fasync`. -/
def vser_fasync (dev : vser_dev) (filp : file) (on_ : Bool) : Int × vser_dev :=
  let r := fasync_helper filp on_ dev.fapp
  (r.1, { dev with fapp := r.2 })

/-- Embedding of `vser_release`. -/
def vser_release (dev : vser_dev) (filp : file) : Int × vser_dev :=
  let dev1 := (vser_fasync dev filp false).2
  (0, { dev1 with available := atomic_inc dev1.available })

/-- The first three statements of `vser_work`: `rnd` is the byte that
`get_random_bytes` stores in `char data`; then `data %= 26; data += 65` in
`int` arithmetic (the remainder truncates towards zero), each result converted
back to `char`.  The value is the byte `data` holds afterwards. -/
def vser_work_data (t : target) (rnd : Nat) : Nat :=
  let data := char_of_byte t rnd
  let data := to_char t (Int.tmod data 26)
  let data := to_char t (data + 65)
  byte_of_char data

/-- Embedding of `vser_work`; `rnd` is the byte `get_random_bytes` delivers. -/
def vser_work (t : target) (dev : vser_dev) (rnd : Nat) : vser_dev × List event :=
  let data := vser_work_data t rnd
  let r :=
    if !kfifo_is_full dev.fifo then
      let k := kfifo_in dev.fifo [data] 1
      (k.1, if k.2 = 0 then [event.printk_kfifo_in_failure] else [])
    else (dev.fifo, [])
  let dev1 := { dev with fifo := r.1 }
  if !kfifo_is_empty dev1.fifo then
    (dev1, r.2 ++ [event.wake_up_interruptible, event.kill_fasync dev1.fapp])
  else (dev1, r.2)

/-- Successive runs of `vser_work`, one per random byte. -/
def vser_works (t : target) (dev : vser_dev) (rnds : List Nat) : vser_dev :=
  rnds.foldl (fun d rnd => (vser_work t d rnd).1) dev

/-- The end of `vser_read`, from `kfifo_out` on. -/
def vser_read_out (dev : vser_dev) (len fault : Nat) (slept : Bool) : read_result :=
  let r := kfifo_out dev.fifo len
  let c := copy_to_user r.2.1 r.2.2 fault
  { ret := (r.2.2 : Int) - (c.2 : Int), dev := { dev with fifo := r.1 }, to_user := c.1,
    slept := slept }

/-- Embedding of `vser_read`. -/
def vser_read (t : target) (dev : vser_dev) (filp : file) (count : Nat) (env : read_env) :
    read_result :=
  let len := if count > VSER_FIFO_SIZE then VSER_FIFO_SIZE else count
  if kfifo_is_empty dev.fifo then
    if filp.f_flags &&& O_NONBLOCK ≠ 0 then
      { ret := -EAGAIN, dev := dev, to_user := [], slept := false }
    else
      match env.wait with
      | wait_result.signal => { ret := -ERESTARTSYS, dev := dev, to_user := [], slept := true }
      | wait_result.woken rnd more =>
        vser_read_out (vser_works t dev (rnd :: more)) len env.fault true
  else vser_read_out dev len env.fault false

/-- Embedding of `vser_write`: the bytes go to a local array of
`VSER_FIFO_SIZE` pointers and nowhere else. -/
def vser_write (t : target) (dev : vser_dev) (count fault : Nat) : Int × vser_dev :=
  let size := VSER_FIFO_SIZE * (t.bits_per_long / 8)
  let len := if count > size then size else count
  let ret := min fault len
  ((len : Int) - (ret : Int), dev)

/-- Embedding of `vser_ioctl`. -/
def vser_ioctl (h : vser_h) (dev : vser_dev) (cmd arg : Nat) (env : ioctl_env) : ioctl_result :=
  if _IOC_TYPE cmd ≠ h.VS_MAGIC then { ret := -ENOTTY, dev := dev, to_user := none }
  else if cmd = h.VS_SET_BAUD then
    { ret := 0, dev := { dev with baud := u32 arg }, to_user := none }
  else if cmd = h.VS_GET_BAUD then
    let _arg := dev.baud
    { ret := 0, dev := dev, to_user := none }
  else if cmd = h.VS_SET_FFMT then
    match env.from_user with
    | Except.ok v => { ret := 0, dev := { dev with opt := v }, to_user := none }
    | Except.error left => { ret := -EFAULT, dev := { dev with opt := left }, to_user := none }
  else if cmd = h.VS_GET_FFMT then
    if env.to_user_fault then { ret := -EFAULT, dev := dev, to_user := none }
    else { ret := 0, dev := dev, to_user := some dev.opt }
  else { ret := -ENOTTY, dev := dev, to_user := none }

/-- Embedding of `vser_poll`; `poll_wait` only adds the caller to the wait
queue and leaves the device data alone. -/
def vser_poll (dev : vser_dev) (_filp : file) : Nat × vser_dev :=
  let mask := POLLOUT ||| POLLWRNORM
  let mask := if !kfifo_is_empty dev.fifo then mask ||| (POLLIN ||| POLLRDNORM) else mask
  (mask, dev)

/-- The loop of `vser_aio_read`: returns the final value of `read`, the device
state and the bytes delivered to each segment that was read. -/
def vser_aio_read_loop (t : target) (filp : file) :
    List iovec → vser_dev → Nat → Nat × vser_dev × List (List Nat)
  | [], dev, read => (read, dev, [])
  | v :: rest, dev, read =>
    let r := vser_read t dev filp v.iov_len v.env
    if r.ret < 0 then (read, r.dev, [])
    else
      let k := vser_aio_read_loop t filp rest r.dev ((read + r.ret.toNat) % 2 ^ t.bits_per_long)
      (k.1, k.2.1, r.to_user :: k.2.2)

/-- Embedding of `vser_aio_read`. -/
def vser_aio_read (t : target) (dev : vser_dev) (filp : file) (iov : List iovec) :
    Int × vser_dev × List (List Nat) :=
  let k := vser_aio_read_loop t filp iov dev 0
  (if k.1 ≠ 0 then to_ssize t k.1 else -EFAULT, k.2.1, k.2.2)

/-! ## Call sequences -/

/-- A call through the session gate. -/
inductive gate_call where
  | call_open (filp : file) : gate_call
  | call_release (filp : file) : gate_call
deriving DecidableEq, Repr

/-- The device together with the files that hold a session: those whose
`vser_open` returned 0 and that have not called `vser_release` since. -/
structure gate_state where
  dev : vser_dev
  holders : List Nat
deriving DecidableEq, Repr

/-- The initialised device, no session open. -/
def gate_init (heap : Nat → Nat) : gate_state :=
  { dev := vser_init heap, holders := [] }

/-- One call through the gate. -/
def gate_step (s : gate_state) : gate_call → gate_state
  | gate_call.call_open p =>
    let r := vser_open s.dev p
    { dev := r.2, holders := if r.1 = 0 then p.ident :: s.holders else s.holders }
  | gate_call.call_release p =>
    { dev := (vser_release s.dev p).2, holders := s.holders.erase p.ident }

/-- The kernel calls `release` only for a file whose `open` succeeded. -/
def gate_allowed (s : gate_state) : gate_call → Prop
  | gate_call.call_open _ => True
  | gate_call.call_release p => p.ident ∈ s.holders

instance (s : gate_state) (c : gate_call) : Decidable (gate_allowed s c) := by
  cases c <;> unfold gate_allowed <;> infer_instance

/-- Every call of the sequence is allowed in the state it is made in. -/
def gate_valid : gate_state → List gate_call → Prop
  | _, [] => True
  | s, c :: cs => gate_allowed s c ∧ gate_valid (gate_step s c) cs

instance gate_valid_decidable : (s : gate_state) → (cs : List gate_call) → Decidable (gate_valid s cs)
  | _, [] => isTrue trivial
  | s, c :: cs =>
    have := gate_valid_decidable (gate_step s c) cs
    inferInstanceAs (Decidable (gate_allowed s c ∧ gate_valid (gate_step s c) cs))

/-- The state after a sequence of calls through the gate. -/
def gate_run (s : gate_state) (cs : List gate_call) : gate_state :=
  cs.foldl gate_step s

/-- A step that can touch the queue, the line configuration or neither. -/
inductive dev_call where
  | work (rnd : Nat) : dev_call
  | read (filp : file) (count : Nat) (env : read_env) : dev_call
  | write (count fault : Nat) : dev_call
  | ioctl (cmd arg : Nat) (env : ioctl_env) : dev_call
  | poll (filp : file) : dev_call

/-- The device state after one step. -/
def dev_step (t : target) (h : vser_h) (dev : vser_dev) : dev_call → vser_dev
  | dev_call.work rnd => (vser_work t dev rnd).1
  | dev_call.read filp count env => (vser_read t dev filp count env).dev
  | dev_call.write count fault => (vser_write t dev count fault).2
  | dev_call.ioctl cmd arg env => (vser_ioctl h dev cmd arg env).dev
  | dev_call.poll filp => (vser_poll dev filp).2

/-- The device state after a sequence of steps. -/
def dev_run (t : target) (h : vser_h) (dev : vser_dev) (cs : List dev_call) : vser_dev :=
  cs.foldl (dev_step t h) dev

/-- The reads a vectored read performs, in the words of the specification:
read into each segment in order and stop after the first read that fails. -/
def sg_reads (t : target) (filp : file) : List iovec → vser_dev → List read_result
  | [], _ => []
  | v :: rest, dev =>
    let r := vser_read t dev filp v.iov_len v.env
    if r.ret < 0 then [r] else r :: sg_reads t filp rest r.dev

/-- The bytes a vectored read accumulates, in the words of the specification:
the sum of the results of the reads that succeeded. -/
def sg_total (rs : List read_result) : Nat :=
  (rs.map (fun r => if r.ret < 0 then 0 else r.ret.toNat)).sum

/-- The device state after the reads of a vectored read. -/
def sg_final (dev : vser_dev) (rs : List read_result) : vser_dev :=
  (rs.getLast?.map read_result.dev).getD dev

/-- The invariant of the gate: the counter is 1 minus the number of holders,
and there is at most one holder. -/
def gate_inv (s : gate_state) : Prop :=
  s.holders.length ≤ 1 ∧ s.dev.available = 1 - (s.holders.length : Int)

/-- A fifo state whose content is the given list of bytes. -/
def kfifo_of_contents (q : List Nat) : kfifo :=
  { in_ := q.length, out := 0, mask := 31, data := q ++ List.replicate (32 - q.length) 0 }

/-! ## Sample inputs -/

/-- A target with signed plain `char` and 64 bit `long`. -/
def target_signed : target := { char_signed := true, bits_per_long := 64 }

/-- A target with unsigned plain `char` and 32 bit `long`. -/
def target_unsigned : target := { char_signed := false, bits_per_long := 32 }

/-- A header instance with four distinct command codes in the namespace of
the magic number 115: `_IOW(115, nr, size)` for `nr = 0 .. 3`. -/
def sample_h : vser_h :=
  { VS_MAGIC := 115, VS_SET_BAUD := 1074033408, VS_GET_BAUD := 1074033409,
    VS_SET_FFMT := 1074557698, VS_GET_FFMT := 1074557699 }

/-- A file opened with `O_NONBLOCK`. -/
def file_nonblock : file := { ident := 7, f_flags := 2048 }

/-- A file opened without `O_NONBLOCK`. -/
def file_block : file := { ident := 7, f_flags := 0 }

/-- A second file. -/
def file_other : file := { ident := 8, f_flags := 0 }

/-- A read environment: no fault, a sleep would be ended by a signal. -/
def env_signal : read_env := { wait := wait_result.signal, fault := 0 }

/-- A device with an empty queue whose counters have advanced, one listener. -/
def dev_empty : vser_dev :=
  { fifo := { in_ := 3, out := 3, mask := 31, data := List.replicate 32 0 }
    fapp := [7], available := 0, baud := 115200
    opt := { datab := 8, parity := 0, stopb := 1 } }

/-- A device whose queue holds the three bytes 65, 66, 67 across the wrap of
the data area, one listener. -/
def dev_three : vser_dev :=
  { fifo := { in_ := 33, out := 30, mask := 31,
              data := 67 :: (List.replicate 29 0 ++ [65, 66]) }
    fapp := [7], available := 0, baud := 115200
    opt := { datab := 8, parity := 0, stopb := 1 } }

/-- A device whose queue is full: it holds the bytes 65 .. 96, oldest at
offset 8 of the data area, one listener. -/
def dev_full : vser_dev :=
  { fifo := { in_ := 40, out := 8, mask := 31,
              data := (List.range 8).map (fun i => 89 + i) ++ (List.range 24).map (fun i => 65 + i) }
    fapp := [7], available := 0, baud := 115200
    opt := { datab := 8, parity := 0, stopb := 1 } }

/-- A segment of four bytes read without fault; a sleep would be ended by a
signal. -/
def sample_iovec : iovec := { iov_len := 4, env := env_signal }

/-- Three segments of two bytes each. -/
def sample_iov : List iovec :=
  [{ iov_len := 2, env := env_signal }, { iov_len := 2, env := env_signal },
    { iov_len := 2, env := env_signal }]

/-- An environment of `vser_ioctl` in which no user copy faults. -/
def env_ioctl : ioctl_env :=
  { from_user := Except.ok { datab := 7, parity := 2, stopb := 2 }, to_user_fault := false }

/-- A call sequence: open, a second open, release by the first file, open by
the second. -/
def sample_calls : List gate_call :=
  [gate_call.call_open file_block, gate_call.call_open file_other,
    gate_call.call_release file_block, gate_call.call_open file_other]

/-- The initialised device after 32 runs of the producer. -/
def dev_pushed : vser_dev :=
  vser_works target_unsigned (vser_init (fun _ => 0)) (List.range 32)

/-! ## Fifo lemmas -/

theorem and_31 (x : Nat) : x &&& 31 = x % 32 :=
  Nat.and_pow_two_sub_one_eq_mod x 5

theorem getElem?_memcpy (dst src : List Nat) (off i : Nat) (h : off + src.length ≤ dst.length) :
    (memcpy dst off src)[i]? =
      if i < off then dst[i]? else if i < off + src.length then src[i - off]? else dst[i]? := by
  unfold memcpy
  rw [List.append_assoc, List.getElem?_append]
  have hl : (List.take off dst).length = off := by
    rw [List.length_take]; omega
  rw [hl]
  by_cases h1 : i < off
  · rw [if_pos h1, if_pos h1, List.getElem?_take_of_lt h1]
  · rw [if_neg h1, if_neg h1, List.getElem?_append]
    by_cases h2 : i < off + src.length
    · rw [if_pos h2, if_pos (by omega)]
    · rw [if_neg h2, if_neg (by omega), List.getElem?_drop]
      congr 1
      omega

theorem length_memcpy (dst src : List Nat) (off : Nat) (h : off + src.length ≤ dst.length) :
    (memcpy dst off src).length = dst.length := by
  unfold memcpy
  simp only [List.length_append, List.length_take, List.length_drop]
  omega

theorem getD_memcpy_one (dst : List Nat) (off i d : Nat) (h : off < dst.length) :
    (memcpy dst off [d]).getD i 0 = if i = off then d else dst.getD i 0 := by
  rw [List.getD_eq_getElem?_getD, List.getD_eq_getElem?_getD,
    getElem?_memcpy dst [d] off i (by simpa using h)]
  by_cases h1 : i < off
  · rw [if_pos h1, if_neg (by omega)]
  · rw [if_neg h1]
    by_cases h2 : i = off
    · subst h2
      simp
    · rw [if_neg h2, if_neg (by simp; omega)]

theorem memcpy_nil (dst : List Nat) : memcpy dst 0 [] = dst := by
  simp [memcpy]

theorem kfifo_in_one_eq (f : kfifo) (d : Nat) (hwf : kfifo_wf f) (hlt : kfifo_len f < 32) :
    kfifo_in f [d] 1 =
      ({ f with data := memcpy f.data (f.in_ % 32) [d], in_ := (f.in_ + 1) % 4294967296 }, 1) := by
  obtain ⟨hm, hd, hi, ho, hl⟩ := hwf
  have hu : kfifo_unused f = 32 - kfifo_len f := by
    unfold kfifo_unused kfifo_len u32_sub u32 at *
    rw [hm]
    omega
  have h1 : ¬ (1 > kfifo_unused f) := by omega
  have hmin : min 1 (32 - f.in_ % 32) = 1 := by omega
  unfold kfifo_in kfifo_copy_in
  simp only [h1, if_false, hm, and_31, hmin, u32, Nat.sub_self, List.take_zero, memcpy_nil]
  simp

theorem kfifo_in_one_wf (f : kfifo) (d : Nat) (hwf : kfifo_wf f) (hlt : kfifo_len f < 32) :
    kfifo_wf (kfifo_in f [d] 1).1 ∧ kfifo_len (kfifo_in f [d] 1).1 = kfifo_len f + 1 := by
  rw [kfifo_in_one_eq f d hwf hlt]
  obtain ⟨hm, hd, hi, ho, hl⟩ := hwf
  have hlen : (memcpy f.data (f.in_ % 32) [d]).length = 32 := by
    rw [length_memcpy _ _ _ (by simp; omega)]
    exact hd
  unfold kfifo_wf kfifo_len u32_sub u32 at *
  simp only
  refine ⟨⟨hm, hlen, ?_, ho, ?_⟩, ?_⟩ <;> omega

theorem kfifo_in_one_contents (f : kfifo) (d : Nat) (hwf : kfifo_wf f) (hlt : kfifo_len f < 32) :
    kfifo_contents (kfifo_in f [d] 1).1 = kfifo_contents f ++ [d] := by
  have hlen := (kfifo_in_one_wf f d hwf hlt).2
  unfold kfifo_contents
  rw [hlen, List.range_succ, List.map_append]
  rw [kfifo_in_one_eq f d hwf hlt] at hlen ⊢
  obtain ⟨hm, hd, hi, ho, hl⟩ := hwf
  simp only [hm]
  have hoff : f.in_ % 32 < f.data.length := by omega
  congr 1
  · apply List.map_congr_left
    intro i hi'
    rw [List.mem_range] at hi'
    rw [getD_memcpy_one _ _ _ _ hoff, if_neg]
    unfold kfifo_len u32_sub u32 at *
    omega
  · simp only [List.map_cons, List.map_nil]
    rw [getD_memcpy_one _ _ _ _ hoff, if_pos]
    unfold kfifo_len u32_sub u32 at *
    omega

theorem kfifo_copy_out_eq (f : kfifo) (k : Nat) (hwf : kfifo_wf f) (hk : k ≤ kfifo_len f) :
    kfifo_copy_out f k f.out = (kfifo_contents f).take k := by
  obtain ⟨hm, hd, hi, ho, hl⟩ := hwf
  unfold kfifo_copy_out kfifo_contents
  simp only [hm, and_31]
  rw [← List.map_take, List.take_range, Nat.min_eq_left hk]
  apply List.ext_getElem?
  intro i
  rw [List.getElem?_map, List.getElem?_append]
  have hlen : (List.take (min k (31 + 1 - f.out % 32)) (List.drop (f.out % 32) f.data)).length
      = min k (32 - f.out % 32) := by
    rw [List.length_take, List.length_drop]
    omega
  rw [hlen]
  by_cases h1 : i < min k (32 - f.out % 32)
  · rw [if_pos h1, List.getElem?_take_of_lt (by omega), List.getElem?_drop,
      List.getElem?_range (by omega), Option.map_some', List.getD_eq_getElem?_getD]
    have h2 : (f.out + i) % (31 + 1) = f.out % 32 + i := by omega
    rw [h2]
    have h3 : f.out % 32 + i < f.data.length := by omega
    rw [List.getElem?_eq_getElem h3]
    rfl
  · rw [if_neg h1]
    by_cases h4 : i < k
    · rw [List.getElem?_take_of_lt (by omega), List.getElem?_range h4, Option.map_some',
        List.getD_eq_getElem?_getD]
      have h2 : (f.out + i) % (31 + 1) = i - min k (32 - f.out % 32) := by omega
      rw [h2]
      have h3 : i - min k (32 - f.out % 32) < f.data.length := by omega
      rw [List.getElem?_eq_getElem h3]
      rfl
    · rw [List.getElem?_eq_none (by rw [List.length_take]; omega),
        List.getElem?_eq_none (by rw [List.length_range]; omega)]
      rfl

theorem kfifo_out_eq (f : kfifo) (n : Nat) (hwf : kfifo_wf f) :
    kfifo_out f n =
      ({ f with out := (f.out + min n (kfifo_len f)) % 4294967296 },
        (kfifo_contents f).take (min n (kfifo_len f)), min n (kfifo_len f)) := by
  have hk : (if n > u32_sub f.in_ f.out then u32_sub f.in_ f.out else n) = min n (kfifo_len f) := by
    unfold kfifo_len
    split <;> omega
  unfold kfifo_out kfifo_out_peek
  simp only [hk, u32]
  rw [kfifo_copy_out_eq f _ hwf (Nat.min_le_right _ _)]

theorem kfifo_out_wf (f : kfifo) (n : Nat) (hwf : kfifo_wf f) :
    kfifo_wf (kfifo_out f n).1 ∧
      kfifo_len (kfifo_out f n).1 = kfifo_len f - min n (kfifo_len f) := by
  rw [kfifo_out_eq f n hwf]
  obtain ⟨hm, hd, hi, ho, hl⟩ := hwf
  unfold kfifo_wf kfifo_len u32_sub u32 at *
  simp only
  refine ⟨⟨hm, hd, hi, ?_, ?_⟩, ?_⟩ <;> omega

theorem kfifo_out_contents (f : kfifo) (n : Nat) (hwf : kfifo_wf f) :
    kfifo_contents (kfifo_out f n).1 = (kfifo_contents f).drop (min n (kfifo_len f)) := by
  have hlen := (kfifo_out_wf f n hwf).2
  unfold kfifo_contents
  rw [hlen]
  rw [kfifo_out_eq f n hwf]
  obtain ⟨hm, hd, hi, ho, hl⟩ := hwf
  simp only [hm]
  apply List.ext_getElem?
  intro i
  rw [List.getElem?_drop, List.getElem?_map, List.getElem?_map]
  by_cases h1 : i < kfifo_len f - min n (kfifo_len f)
  · rw [List.getElem?_range h1, List.getElem?_range (by omega), Option.map_some', Option.map_some']
    congr 2
    omega
  · rw [List.getElem?_eq_none (by rw [List.length_range]; omega),
      List.getElem?_eq_none (by rw [List.length_range]; omega)]
    rfl

theorem kfifo_contents_length (f : kfifo) : (kfifo_contents f).length = kfifo_len f := by
  simp [kfifo_contents]

theorem kfifo_is_empty_iff (f : kfifo) (hwf : kfifo_wf f) :
    kfifo_is_empty f = true ↔ kfifo_contents f = [] := by
  obtain ⟨hm, hd, hi, ho, hl⟩ := hwf
  rw [← List.length_eq_zero, kfifo_contents_length]
  unfold kfifo_is_empty kfifo_len u32_sub u32 at *
  rw [decide_eq_true_iff]
  omega

theorem kfifo_of_contents_spec (q : List Nat) (hq : q.length ≤ 32) :
    kfifo_wf (kfifo_of_contents q) ∧ kfifo_contents (kfifo_of_contents q) = q := by
  constructor
  · unfold kfifo_wf kfifo_of_contents kfifo_len u32_sub u32
    simp only [List.length_append, List.length_replicate]
    refine ⟨trivial, ?_, ?_, ?_, ?_⟩ <;> omega
  · unfold kfifo_contents kfifo_of_contents kfifo_len u32_sub u32
    simp only
    have hl : (q.length % 4294967296 + (4294967296 - 0 % 4294967296)) % 4294967296 = q.length := by
      omega
    rw [hl]
    apply List.ext_getElem?
    intro i
    rw [List.getElem?_map]
    by_cases hi : i < q.length
    · rw [List.getElem?_range hi, Option.map_some', List.getD_eq_getElem?_getD]
      have h2 : (0 + i) % (31 + 1) = i := by omega
      rw [h2, List.getElem?_append_left hi, List.getElem?_eq_getElem hi]
      rfl
    · rw [List.getElem?_eq_none (by rw [List.length_range]; omega),
        List.getElem?_eq_none (by omega)]
      rfl

/-! ## Lemmas on the driver -/

theorem kfifo_is_full_iff (f : kfifo) (hwf : kfifo_wf f) :
    kfifo_is_full f = true ↔ kfifo_len f = 32 := by
  obtain ⟨hm, hd, hi, ho, hl⟩ := hwf
  unfold kfifo_is_full
  rw [decide_eq_true_iff, hm]
  omega

theorem kfifo_is_empty_iff_len (f : kfifo) (hwf : kfifo_wf f) :
    kfifo_is_empty f = true ↔ kfifo_len f = 0 := by
  rw [kfifo_is_empty_iff f hwf, ← List.length_eq_zero, kfifo_contents_length]

theorem vser_work_not_full (t : target) (dev : vser_dev) (rnd : Nat) (hwf : kfifo_wf dev.fifo)
    (hlt : kfifo_len dev.fifo < 32) :
    vser_work t dev rnd =
      ({ dev with fifo := (kfifo_in dev.fifo [vser_work_data t rnd] 1).1 },
        [event.wake_up_interruptible, event.kill_fasync dev.fapp]) := by
  have hfull : kfifo_is_full dev.fifo = false := by
    rw [← Bool.not_eq_true, kfifo_is_full_iff _ hwf]
    omega
  have h2 := kfifo_in_one_wf dev.fifo (vser_work_data t rnd) hwf hlt
  have hne : kfifo_is_empty (kfifo_in dev.fifo [vser_work_data t rnd] 1).1 = false := by
    rw [← Bool.not_eq_true, kfifo_is_empty_iff_len _ h2.1, h2.2]
    omega
  have hret : (kfifo_in dev.fifo [vser_work_data t rnd] 1).2 = 1 := by
    rw [kfifo_in_one_eq _ _ hwf hlt]
  unfold vser_work
  simp [hfull, hne, hret]

theorem vser_work_full (t : target) (dev : vser_dev) (rnd : Nat) (hwf : kfifo_wf dev.fifo)
    (hfl : kfifo_len dev.fifo = 32) :
    vser_work t dev rnd = (dev, [event.wake_up_interruptible, event.kill_fasync dev.fapp]) := by
  have hfull : kfifo_is_full dev.fifo = true := (kfifo_is_full_iff _ hwf).2 hfl
  have hne : kfifo_is_empty dev.fifo = false := by
    rw [← Bool.not_eq_true, kfifo_is_empty_iff_len _ hwf]
    omega
  unfold vser_work
  simp [hfull, hne]

theorem vser_work_wf (t : target) (dev : vser_dev) (rnd : Nat) (hwf : kfifo_wf dev.fifo) :
    kfifo_wf (vser_work t dev rnd).1.fifo := by
  have hl : kfifo_len dev.fifo ≤ 32 := hwf.2.2.2.2
  by_cases hlt : kfifo_len dev.fifo < 32
  · rw [vser_work_not_full t dev rnd hwf hlt]
    exact (kfifo_in_one_wf _ _ hwf hlt).1
  · rw [vser_work_full t dev rnd hwf (by omega)]
    exact hwf

theorem vser_works_wf (t : target) (rnds : List Nat) (dev : vser_dev) (hwf : kfifo_wf dev.fifo) :
    kfifo_wf (vser_works t dev rnds).fifo := by
  induction rnds generalizing dev with
  | nil => exact hwf
  | cons r rs ih => exact ih _ (vser_work_wf t dev r hwf)

theorem vser_init_wf (heap : Nat → Nat) : kfifo_wf (vser_init heap).fifo := by
  unfold kfifo_wf vser_init kfifo_alloc kfifo_len u32_sub u32 VSER_FIFO_SIZE
  simp

theorem vser_init_contents (heap : Nat → Nat) : kfifo_contents (vser_init heap).fifo = [] := by
  unfold kfifo_contents vser_init kfifo_alloc kfifo_len u32_sub u32 VSER_FIFO_SIZE
  simp

theorem vser_work_push_cases (t : target) (dev : vser_dev) (rnd : Nat)
    (hwf : kfifo_wf dev.fifo) :
    (kfifo_len dev.fifo < 32 →
      kfifo_contents (vser_work t dev rnd).1.fifo =
        kfifo_contents dev.fifo ++ [vser_work_data t rnd]) ∧
    (kfifo_len dev.fifo = 32 → (vser_work t dev rnd).1 = dev) := by
  constructor
  · intro hlt
    rw [vser_work_not_full t dev rnd hwf hlt]
    exact kfifo_in_one_contents _ _ hwf hlt
  · intro hfl
    rw [vser_work_full t dev rnd hwf hfl]

/-! ## The producer: `vser_work` -/

/-- Claim C3: for every well formed queue and every random byte, one run of
`vser_work` appends the generated byte at the back of the queue if and only if
the queue holds fewer than 32 bytes; when it holds 32 bytes the run leaves the
device, hence the length and every byte of the queue, exactly as it was. -/
theorem vser_work_appends_or_drops (t : target) (dev : vser_dev) (rnd : Nat)
    (hwf : kfifo_wf dev.fifo) :
    (kfifo_contents dev.fifo).length ≤ 32 ∧
    ((kfifo_contents dev.fifo).length < 32 →
      kfifo_contents (vser_work t dev rnd).1.fifo =
        kfifo_contents dev.fifo ++ [vser_work_data t rnd]) ∧
    ((kfifo_contents dev.fifo).length = 32 →
      (vser_work t dev rnd).1 = dev ∧
      kfifo_contents (vser_work t dev rnd).1.fifo = kfifo_contents dev.fifo ∧
      (kfifo_contents (vser_work t dev rnd).1.fifo).length = 32) ∧
    (kfifo_contents (vser_work t dev rnd).1.fifo =
        kfifo_contents dev.fifo ++ [vser_work_data t rnd] ↔
      (kfifo_contents dev.fifo).length < 32) := by
  have hl : kfifo_len dev.fifo ≤ 32 := hwf.2.2.2.2
  have happ : (kfifo_contents dev.fifo).length < 32 →
      kfifo_contents (vser_work t dev rnd).1.fifo =
        kfifo_contents dev.fifo ++ [vser_work_data t rnd] := by
    intro hlt
    rw [kfifo_contents_length] at hlt
    rw [vser_work_not_full t dev rnd hwf hlt]
    exact kfifo_in_one_contents _ _ hwf hlt
  have hfull : (kfifo_contents dev.fifo).length = 32 → (vser_work t dev rnd).1 = dev := by
    intro hfl
    rw [kfifo_contents_length] at hfl
    rw [vser_work_full t dev rnd hwf hfl]
  refine ⟨by rw [kfifo_contents_length]; exact hl, happ, ?_, ?_⟩
  · intro hfl
    rw [hfull hfl]
    exact ⟨rfl, rfl, hfl⟩
  · constructor
    · intro heq
      by_contra hnl
      have hfl : (kfifo_contents dev.fifo).length = 32 := by
        rw [kfifo_contents_length] at hnl ⊢
        omega
      rw [hfull hfl] at heq
      have := congrArg List.length heq
      simp at this
    · exact happ

/-- Witness of C3 on a full queue and on a queue of three bytes. -/
theorem vser_work_appends_or_drops_witness :
    kfifo_wf dev_full.fifo ∧
    ((kfifo_contents dev_full.fifo).length ≤ 32 ∧
    ((kfifo_contents dev_full.fifo).length < 32 →
      kfifo_contents (vser_work target_unsigned dev_full 255).1.fifo =
        kfifo_contents dev_full.fifo ++ [vser_work_data target_unsigned 255]) ∧
    ((kfifo_contents dev_full.fifo).length = 32 →
      (vser_work target_unsigned dev_full 255).1 = dev_full ∧
      kfifo_contents (vser_work target_unsigned dev_full 255).1.fifo =
        kfifo_contents dev_full.fifo ∧
      (kfifo_contents (vser_work target_unsigned dev_full 255).1.fifo).length = 32) ∧
    (kfifo_contents (vser_work target_unsigned dev_full 255).1.fifo =
        kfifo_contents dev_full.fifo ++ [vser_work_data target_unsigned 255] ↔
      (kfifo_contents dev_full.fifo).length < 32)) :=
  ⟨by decide, vser_work_appends_or_drops target_unsigned dev_full 255 (by decide)⟩

/-- Claim C7, as stated, fails: on a queue that already holds three bytes, and
on a full queue where the new byte is dropped, one run of `vser_work` still
delivers the wake up and the `kill_fasync` to the registered listener. -/
theorem vser_work_notifies_nonempty_counterexample :
    kfifo_contents dev_three.fifo = [65, 66, 67] ∧
    (vser_work target_unsigned dev_three 0).2 =
      [event.wake_up_interruptible, event.kill_fasync [7]] ∧
    (vser_work target_unsigned dev_three 0).2 ≠ [] ∧
    (kfifo_contents dev_full.fifo).length = 32 ∧
    (vser_work target_unsigned dev_full 0).1 = dev_full ∧
    (vser_work target_unsigned dev_full 0).2 =
      [event.wake_up_interruptible, event.kill_fasync [7]] ∧
    (vser_work target_unsigned dev_full 0).2 ≠ [] := by
  decide

/-- Claim C7, amended: for every well formed queue, one run of `vser_work`
leaves the queue non-empty and delivers the input-ready notification (one
`wake_up_interruptible`, then one `kill_fasync` to the registered listeners)
exactly once, whether the run changed the queue from empty to non-empty or the
queue was non-empty before, the full queue with its dropped byte included. -/
theorem vser_work_notifies_once (t : target) (dev : vser_dev) (rnd : Nat)
    (hwf : kfifo_wf dev.fifo) :
    kfifo_contents (vser_work t dev rnd).1.fifo ≠ [] ∧
    (vser_work t dev rnd).2 = [event.wake_up_interruptible, event.kill_fasync dev.fapp] ∧
    (kfifo_contents dev.fifo = [] →
      kfifo_contents (vser_work t dev rnd).1.fifo = [vser_work_data t rnd]) := by
  have hl : kfifo_len dev.fifo ≤ 32 := hwf.2.2.2.2
  have hc := vser_work_push_cases t dev rnd hwf
  by_cases hlt : kfifo_len dev.fifo < 32
  · have h1 := hc.1 hlt
    refine ⟨?_, ?_, ?_⟩
    · rw [h1]
      simp
    · rw [vser_work_not_full t dev rnd hwf hlt]
    · intro he
      rw [h1, he]
      rfl
  · have hfl : kfifo_len dev.fifo = 32 := by omega
    have hne : kfifo_contents dev.fifo ≠ [] := by
      intro he
      have := congrArg List.length he
      rw [kfifo_contents_length] at this
      simp at this
      omega
    rw [vser_work_full t dev rnd hwf hfl]
    exact ⟨hne, rfl, fun he => absurd he hne⟩

/-- Witness of the amended C7 on a queue of three bytes. -/
theorem vser_work_notifies_once_witness :
    kfifo_wf dev_three.fifo ∧
    (kfifo_contents (vser_work target_unsigned dev_three 0).1.fifo ≠ [] ∧
    (vser_work target_unsigned dev_three 0).2 =
      [event.wake_up_interruptible, event.kill_fasync dev_three.fapp] ∧
    (kfifo_contents dev_three.fifo = [] →
      kfifo_contents (vser_work target_unsigned dev_three 0).1.fifo =
        [vser_work_data target_unsigned 0])) :=
  ⟨by decide, vser_work_notifies_once target_unsigned dev_three 0 (by decide)⟩

/-- The byte `vser_work` generates, on a target whose plain `char` is
unsigned: an upper case letter. -/
theorem vser_work_data_unsigned (t : target) (rnd : Nat) (hu : t.char_signed = false) :
    vser_work_data t rnd = rnd % 256 % 26 + 65 := by
  unfold vser_work_data to_char char_of_byte byte_of_char
  simp only [hu, Bool.false_eq_true, false_and, if_false]
  have h1 : Int.tmod ((rnd % 256 : Nat) : Int) 26 = ((rnd % 256 % 26 : Nat) : Int) := by
    rw [Int.tmod_eq_emod (by omega) (by omega)]
    omega
  rw [h1]
  omega

/-- The byte `vser_work` generates on the sample target with signed plain
`char`: always between 40 and 90, and below 65 exactly for the random bytes
from 128 on whose signed value is not a multiple of 26. -/
theorem vser_work_data_signed_range :
    ∀ rnd, rnd < 256 →
      40 ≤ vser_work_data target_signed rnd ∧ vser_work_data target_signed rnd ≤ 90 ∧
      (vser_work_data target_signed rnd < 65 ↔ 128 ≤ rnd ∧ (256 - rnd) % 26 ≠ 0) := by
  decide

/-- Claim C6 at the random byte 255 on a target whose plain `char` is signed:
`data` is -1, `data %= 26` leaves -1, `data += 65` gives 64, which is not an
upper case letter, and this byte is what `vser_work` pushes into the queue of
the initialised device.  On a target with unsigned `char` the same random byte
gives the letter 86. -/
theorem vser_work_data_signed_255 :
    char_of_byte target_signed 255 = -1 ∧
    vser_work_data target_signed 255 = 64 ∧
    ¬ (65 ≤ vser_work_data target_signed 255 ∧ vser_work_data target_signed 255 ≤ 90) ∧
    kfifo_contents (vser_work target_signed (vser_init (fun _ => 0)) 255).1.fifo = [64] ∧
    vser_work_data target_unsigned 255 = 86 := by
  decide

/-! ## The session gate: `vser_open` and `vser_release` -/

theorem gate_inv_cases (s : gate_state) (h : gate_inv s) :
    (s.holders = [] ∧ s.dev.available = 1) ∨ (∃ p, s.holders = [p] ∧ s.dev.available = 0) := by
  obtain ⟨h1, h2⟩ := h
  match hs : s.holders with
  | [] =>
    left
    rw [hs] at h2
    exact ⟨rfl, by simpa using h2⟩
  | [p] =>
    right
    rw [hs] at h2
    exact ⟨p, rfl, by simpa using h2⟩
  | _ :: _ :: _ =>
    rw [hs] at h1
    simp at h1

theorem vser_open_free (dev : vser_dev) (p : file) (h : dev.available = 1) :
    vser_open dev p = (0, { dev with available := 0 }) := by
  unfold vser_open atomic_dec_and_test int32
  rw [h]
  rfl

theorem vser_open_held (dev : vser_dev) (p : file) (h : dev.available = 0) :
    vser_open dev p = (-EBUSY, dev) := by
  unfold vser_open atomic_dec_and_test atomic_inc int32
  rw [h]
  have : ({ dev with available := 0 } : vser_dev) = dev := by
    cases dev
    simp_all
  simpa using this

theorem vser_release_held (dev : vser_dev) (p : file) (h : dev.available = 0) :
    (vser_release dev p).2.available = 1 := by
  unfold vser_release vser_fasync atomic_inc int32
  simp only [h]
  rfl

theorem gate_inv_step (s : gate_state) (c : gate_call) (h : gate_inv s) (ha : gate_allowed s c) :
    gate_inv (gate_step s c) := by
  rcases gate_inv_cases s h with ⟨hs, hv⟩ | ⟨q, hs, hv⟩
  · cases c with
    | call_open p =>
      simp only [gate_step, gate_inv, vser_open_free _ _ hv, hs]
      simp
    | call_release p =>
      simp only [gate_allowed, hs] at ha
      simp at ha
  · cases c with
    | call_open p =>
      simp only [gate_step, gate_inv, vser_open_held _ _ hv, hs]
      simp [EBUSY, hv]
    | call_release p =>
      simp only [gate_allowed, hs] at ha
      have hp : p.ident = q := by simpa using ha
      simp only [gate_step, gate_inv, vser_release_held _ _ hv, hs, hp]
      simp

theorem gate_inv_run (cs : List gate_call) (s : gate_state) (h : gate_inv s)
    (hv : gate_valid s cs) : gate_inv (gate_run s cs) := by
  induction cs generalizing s with
  | nil => exact h
  | cons c cs ih =>
    obtain ⟨ha, hr⟩ := hv
    exact ih (gate_step s c) (gate_inv_step s c h ha) hr

/-- Claim C1: from the initialised device (counter 1), after every sequence
of `vser_open` and `vser_release` calls in which `vser_release` is called only
by a holder of a successful `vser_open`: at most one session is open;
`vser_open` returns 0 if and only if no session is open and `-EBUSY`
otherwise; a failed `vser_open` leaves the counter (the whole device) as it
found it; and after the holder's `vser_release` the next `vser_open`
returns 0. -/
theorem vser_open_exclusive (heap : Nat → Nat) (calls : List gate_call)
    (hv : gate_valid (gate_init heap) calls) :
    (gate_run (gate_init heap) calls).holders.length ≤ 1 ∧
    (∀ p, (vser_open (gate_run (gate_init heap) calls).dev p).1 = 0 ↔
      (gate_run (gate_init heap) calls).holders = []) ∧
    (∀ p, (gate_run (gate_init heap) calls).holders ≠ [] →
      (vser_open (gate_run (gate_init heap) calls).dev p).1 = -EBUSY) ∧
    (∀ p, (vser_open (gate_run (gate_init heap) calls).dev p).1 ≠ 0 →
      (vser_open (gate_run (gate_init heap) calls).dev p).2 =
        (gate_run (gate_init heap) calls).dev) ∧
    (∀ p q, p.ident ∈ (gate_run (gate_init heap) calls).holders →
      (vser_open (vser_release (gate_run (gate_init heap) calls).dev p).2 q).1 = 0) := by
  have h0 : gate_inv (gate_init heap) := by
    unfold gate_inv gate_init vser_init
    simp
  have hinv := gate_inv_run calls (gate_init heap) h0 hv
  generalize gate_run (gate_init heap) calls = s at hinv
  rcases gate_inv_cases s hinv with ⟨hs, ha⟩ | ⟨q, hs, ha⟩
  · refine ⟨hinv.1, ?_, ?_, ?_, ?_⟩
    · intro p
      rw [vser_open_free _ _ ha]
      simp [hs]
    · intro p hne
      exact absurd hs hne
    · intro p hne
      rw [vser_open_free _ _ ha] at hne
      simp at hne
    · intro p q hp
      rw [hs] at hp
      simp at hp
  · refine ⟨hinv.1, ?_, ?_, ?_, ?_⟩
    · intro p
      rw [vser_open_held _ _ ha]
      simp [hs, EBUSY]
    · intro p _
      rw [vser_open_held _ _ ha]
    · intro p _
      rw [vser_open_held _ _ ha]
    · intro p r _
      rw [vser_open_free _ _ (vser_release_held _ _ ha)]

/-- Witness of C1: open, a second open that is refused, release by the
holder, open by the second file. -/
theorem vser_open_exclusive_witness :
    gate_valid (gate_init (fun _ => 0)) sample_calls ∧
    ((gate_run (gate_init (fun _ => 0)) sample_calls).holders.length ≤ 1 ∧
    (∀ p, (vser_open (gate_run (gate_init (fun _ => 0)) sample_calls).dev p).1 = 0 ↔
      (gate_run (gate_init (fun _ => 0)) sample_calls).holders = []) ∧
    (∀ p, (gate_run (gate_init (fun _ => 0)) sample_calls).holders ≠ [] →
      (vser_open (gate_run (gate_init (fun _ => 0)) sample_calls).dev p).1 = -EBUSY) ∧
    (∀ p, (vser_open (gate_run (gate_init (fun _ => 0)) sample_calls).dev p).1 ≠ 0 →
      (vser_open (gate_run (gate_init (fun _ => 0)) sample_calls).dev p).2 =
        (gate_run (gate_init (fun _ => 0)) sample_calls).dev) ∧
    (∀ p q, p.ident ∈ (gate_run (gate_init (fun _ => 0)) sample_calls).holders →
      (vser_open (vser_release (gate_run (gate_init (fun _ => 0)) sample_calls).dev p).2 q).1 =
        0)) :=
  ⟨by decide, vser_open_exclusive (fun _ => 0) sample_calls (by decide)⟩

/-! ## The consumer: `vser_read` -/

theorem vser_read_out_wf (dev : vser_dev) (len fault : Nat) (slept : Bool)
    (hwf : kfifo_wf dev.fifo) : kfifo_wf (vser_read_out dev len fault slept).dev.fifo :=
  (kfifo_out_wf dev.fifo len hwf).1

theorem vser_read_wf (t : target) (dev : vser_dev) (filp : file) (count : Nat) (env : read_env)
    (hwf : kfifo_wf dev.fifo) : kfifo_wf (vser_read t dev filp count env).dev.fifo := by
  unfold vser_read
  generalize (if count > VSER_FIFO_SIZE then VSER_FIFO_SIZE else count) = len
  simp only
  by_cases he : kfifo_is_empty dev.fifo = true
  · rw [if_pos he]
    by_cases hnb : filp.f_flags &&& O_NONBLOCK ≠ 0
    · rw [if_pos hnb]
      exact hwf
    · rw [if_neg hnb]
      cases env.wait with
      | signal => exact hwf
      | woken rnd more => exact vser_read_out_wf _ _ _ _ (vser_works_wf t _ dev hwf)
  · rw [if_neg he]
    exact vser_read_out_wf _ _ _ _ hwf

theorem vser_read_nonempty (t : target) (dev : vser_dev) (filp : file) (count : Nat)
    (env : read_env) (hwf : kfifo_wf dev.fifo) (hne : kfifo_contents dev.fifo ≠ [])
    (hfault : env.fault = 0) :
    vser_read t dev filp count env =
      { ret := ((min count (min 32 (kfifo_contents dev.fifo).length) : Nat) : Int)
        dev := { dev with fifo := (kfifo_out dev.fifo (min count 32)).1 }
        to_user := (kfifo_contents dev.fifo).take
          (min count (min 32 (kfifo_contents dev.fifo).length))
        slept := false } := by
  have hemp : kfifo_is_empty dev.fifo = false := by
    rw [← Bool.not_eq_true, kfifo_is_empty_iff _ hwf]
    exact hne
  have hlen : (if count > VSER_FIFO_SIZE then VSER_FIFO_SIZE else count) = min count 32 := by
    unfold VSER_FIFO_SIZE
    split <;> omega
  have hk : min (min count 32) (kfifo_len dev.fifo) =
      min count (min 32 (kfifo_contents dev.fifo).length) := by
    rw [kfifo_contents_length]
    omega
  unfold vser_read
  rw [hlen]
  simp only [hemp, Bool.false_eq_true, if_false]
  unfold vser_read_out copy_to_user
  rw [hfault, kfifo_out_eq _ _ hwf, hk]
  simp

theorem vser_works_contents (t : target) (rnds : List Nat) (dev : vser_dev)
    (hwf : kfifo_wf dev.fifo) (hroom : kfifo_len dev.fifo + rnds.length ≤ 32) :
    kfifo_contents (vser_works t dev rnds).fifo =
      kfifo_contents dev.fifo ++ rnds.map (vser_work_data t) := by
  induction rnds generalizing dev with
  | nil => simp [vser_works]
  | cons r rs ih =>
    rw [List.length_cons] at hroom
    have hlt : kfifo_len dev.fifo < 32 := by omega
    have h1 := (vser_work_push_cases t dev r hwf).1 hlt
    have hwf1 := vser_work_wf t dev r hwf
    have hlen1 : kfifo_len (vser_work t dev r).1.fifo = kfifo_len dev.fifo + 1 := by
      rw [← kfifo_contents_length, h1, List.length_append, kfifo_contents_length]
      rfl
    have h2 := ih (vser_work t dev r).1 hwf1 (by omega)
    unfold vser_works at h2 ⊢
    rw [List.foldl_cons, h2, h1]
    simp

/-- Claim C2: for every well formed non-empty queue `q` and every requested
count, a `vser_read` whose copy to the caller succeeds returns
`n = min count (min 32 q.length)`, hands the caller the first `n` bytes of `q`
in order and leaves the other `q.length - n` bytes in the queue in order; in
particular after 32 runs of the producer on the initialised device a read of
32 returns the 32 pushed bytes in push order and empties the queue. -/
theorem vser_read_fifo (t : target) (dev : vser_dev) (filp : file) (count : Nat) (env : read_env)
    (hwf : kfifo_wf dev.fifo) (hne : kfifo_contents dev.fifo ≠ []) (hfault : env.fault = 0) :
    (vser_read t dev filp count env).ret =
      ((min count (min 32 (kfifo_contents dev.fifo).length) : Nat) : Int) ∧
    (vser_read t dev filp count env).to_user =
      (kfifo_contents dev.fifo).take (min count (min 32 (kfifo_contents dev.fifo).length)) ∧
    kfifo_contents (vser_read t dev filp count env).dev.fifo =
      (kfifo_contents dev.fifo).drop (min count (min 32 (kfifo_contents dev.fifo).length)) ∧
    (kfifo_contents (vser_read t dev filp count env).dev.fifo).length =
      (kfifo_contents dev.fifo).length - min count (min 32 (kfifo_contents dev.fifo).length) ∧
    (∀ heap rnds, rnds.length = 32 → dev = vser_works t (vser_init heap) rnds → count = 32 →
      (vser_read t dev filp count env).ret = 32 ∧
      (vser_read t dev filp count env).to_user = rnds.map (vser_work_data t) ∧
      kfifo_contents (vser_read t dev filp count env).dev.fifo = []) := by
  have hk : min (min count 32) (kfifo_len dev.fifo) =
      min count (min 32 (kfifo_contents dev.fifo).length) := by
    rw [kfifo_contents_length]
    omega
  have hdrop : kfifo_contents (vser_read t dev filp count env).dev.fifo =
      (kfifo_contents dev.fifo).drop (min count (min 32 (kfifo_contents dev.fifo).length)) := by
    rw [vser_read_nonempty t dev filp count env hwf hne hfault]
    simp only
    rw [kfifo_out_contents _ _ hwf, hk]
  refine ⟨?_, ?_, hdrop, ?_, ?_⟩
  · rw [vser_read_nonempty t dev filp count env hwf hne hfault]
  · rw [vser_read_nonempty t dev filp count env hwf hne hfault]
  · rw [hdrop, List.length_drop]
  · intro heap rnds hlen hdev hcount
    have hq : kfifo_contents dev.fifo = rnds.map (vser_work_data t) := by
      rw [hdev, vser_works_contents t rnds _ (vser_init_wf heap)
        (by rw [← kfifo_contents_length, vser_init_contents]; simp [hlen]), vser_init_contents]
      rfl
    have hql : (kfifo_contents dev.fifo).length = 32 := by
      rw [hq, List.length_map, hlen]
    have hn : min count (min 32 (kfifo_contents dev.fifo).length) = 32 := by
      rw [hql, hcount]
      rfl
    refine ⟨?_, ?_, ?_⟩
    · rw [vser_read_nonempty t dev filp count env hwf hne hfault, hn]
      rfl
    · rw [vser_read_nonempty t dev filp count env hwf hne hfault, hn]
      simp only
      rw [← hql, List.take_length, hq]
    · rw [hdrop, hn, ← hql, List.drop_length]

/-- Witness of C2: the scenario of 32 pushes followed by a read of 32. -/
theorem vser_read_fifo_witness :
    (kfifo_wf dev_pushed.fifo ∧ kfifo_contents dev_pushed.fifo ≠ [] ∧ env_signal.fault = 0) ∧
    ((vser_read target_unsigned dev_pushed file_block 32 env_signal).ret =
      ((min 32 (min 32 (kfifo_contents dev_pushed.fifo).length) : Nat) : Int) ∧
    (vser_read target_unsigned dev_pushed file_block 32 env_signal).to_user =
      (kfifo_contents dev_pushed.fifo).take
        (min 32 (min 32 (kfifo_contents dev_pushed.fifo).length)) ∧
    kfifo_contents (vser_read target_unsigned dev_pushed file_block 32 env_signal).dev.fifo =
      (kfifo_contents dev_pushed.fifo).drop
        (min 32 (min 32 (kfifo_contents dev_pushed.fifo).length)) ∧
    (kfifo_contents (vser_read target_unsigned dev_pushed file_block 32 env_signal).dev.fifo).length =
      (kfifo_contents dev_pushed.fifo).length -
        min 32 (min 32 (kfifo_contents dev_pushed.fifo).length) ∧
    (∀ heap rnds, rnds.length = 32 →
      dev_pushed = vser_works target_unsigned (vser_init heap) rnds → 32 = 32 →
      (vser_read target_unsigned dev_pushed file_block 32 env_signal).ret = 32 ∧
      (vser_read target_unsigned dev_pushed file_block 32 env_signal).to_user =
        rnds.map (vser_work_data target_unsigned) ∧
      kfifo_contents (vser_read target_unsigned dev_pushed file_block 32 env_signal).dev.fifo =
        [])) :=
  ⟨⟨by decide, by decide, rfl⟩,
    vser_read_fifo target_unsigned dev_pushed file_block 32 env_signal (by decide) (by decide) rfl⟩

/-- Claim C5: for every requested count, `vser_read` on a file with
`O_NONBLOCK` set while the queue is empty returns `-EAGAIN` without sleeping,
copies nothing to the caller and leaves the whole device state unchanged. -/
theorem vser_read_nonblock_empty (t : target) (dev : vser_dev) (filp : file) (count : Nat)
    (env : read_env) (hwf : kfifo_wf dev.fifo) (hempty : kfifo_contents dev.fifo = [])
    (hnb : filp.f_flags &&& O_NONBLOCK ≠ 0) :
    vser_read t dev filp count env =
      { ret := -EAGAIN, dev := dev, to_user := [], slept := false } := by
  have he : kfifo_is_empty dev.fifo = true := (kfifo_is_empty_iff _ hwf).2 hempty
  unfold vser_read
  simp only
  rw [if_pos he, if_pos hnb]

/-- Witness of C5 on an empty queue whose counters have advanced. -/
theorem vser_read_nonblock_empty_witness :
    (kfifo_wf dev_empty.fifo ∧ kfifo_contents dev_empty.fifo = [] ∧
      file_nonblock.f_flags &&& O_NONBLOCK ≠ 0) ∧
    vser_read target_unsigned dev_empty file_nonblock 5 env_signal =
      { ret := -EAGAIN, dev := dev_empty, to_user := [], slept := false } :=
  ⟨⟨by decide, by decide, by decide⟩,
    vser_read_nonblock_empty target_unsigned dev_empty file_nonblock 5 env_signal
      (by decide) (by decide) (by decide)⟩

/-! ## Readiness: `vser_poll` -/

/-- Claim C10: for every well formed queue the mask `vser_poll` returns has
`POLLOUT | POLLWRNORM` set, has `POLLIN | POLLRDNORM` set if and only if the
queue is non-empty (and none of these two bits if and only if it is empty),
and `vser_poll` leaves the device, hence the queue, unchanged. -/
theorem vser_poll_mask (dev : vser_dev) (filp : file) (hwf : kfifo_wf dev.fifo) :
    (vser_poll dev filp).1 &&& (POLLOUT ||| POLLWRNORM) = POLLOUT ||| POLLWRNORM ∧
    ((vser_poll dev filp).1 &&& (POLLIN ||| POLLRDNORM) = POLLIN ||| POLLRDNORM ↔
      kfifo_contents dev.fifo ≠ []) ∧
    ((vser_poll dev filp).1 &&& (POLLIN ||| POLLRDNORM) = 0 ↔ kfifo_contents dev.fifo = []) ∧
    (vser_poll dev filp).2 = dev ∧
    kfifo_contents (vser_poll dev filp).2.fifo = kfifo_contents dev.fifo := by
  have hiff := kfifo_is_empty_iff dev.fifo hwf
  unfold vser_poll
  by_cases he : kfifo_is_empty dev.fifo = true
  · have hq := hiff.1 he
    simp only [he, Bool.not_true, Bool.false_eq_true, if_false]
    exact ⟨by decide, ⟨fun h => absurd h (by decide), fun h => absurd hq h⟩,
      ⟨fun _ => hq, fun _ => by decide⟩, trivial, trivial⟩
  · have hq : kfifo_contents dev.fifo ≠ [] := fun h => he (hiff.2 h)
    have hb : kfifo_is_empty dev.fifo = false := by simpa using he
    simp only [hb, Bool.not_false, if_true]
    exact ⟨by decide, ⟨fun _ => hq, fun _ => by decide⟩,
      ⟨fun h => absurd h (by decide), fun h => absurd h hq⟩, trivial, trivial⟩

/-- Witness of C10 on a queue of three bytes. -/
theorem vser_poll_mask_witness :
    kfifo_wf dev_three.fifo ∧
    ((vser_poll dev_three file_block).1 &&& (POLLOUT ||| POLLWRNORM) = POLLOUT ||| POLLWRNORM ∧
    ((vser_poll dev_three file_block).1 &&& (POLLIN ||| POLLRDNORM) = POLLIN ||| POLLRDNORM ↔
      kfifo_contents dev_three.fifo ≠ []) ∧
    ((vser_poll dev_three file_block).1 &&& (POLLIN ||| POLLRDNORM) = 0 ↔
      kfifo_contents dev_three.fifo = []) ∧
    (vser_poll dev_three file_block).2 = dev_three ∧
    kfifo_contents (vser_poll dev_three file_block).2.fifo = kfifo_contents dev_three.fifo) :=
  ⟨by decide, vser_poll_mask dev_three file_block (by decide)⟩

/-! ## Reachable states -/

theorem dev_step_wf (t : target) (h : vser_h) (dev : vser_dev) (c : dev_call)
    (hwf : kfifo_wf dev.fifo) : kfifo_wf (dev_step t h dev c).fifo := by
  cases c with
  | work rnd => exact vser_work_wf t dev rnd hwf
  | read filp count env => exact vser_read_wf t dev filp count env hwf
  | write count fault => exact hwf
  | ioctl cmd arg env =>
    simp only [dev_step, vser_ioctl]
    split
    · exact hwf
    · split
      · exact hwf
      · split
        · exact hwf
        · split
          · split <;> exact hwf
          · split
            · split <;> exact hwf
            · exact hwf
  | poll filp => exact hwf

theorem dev_run_wf (t : target) (h : vser_h) (cs : List dev_call) (dev : vser_dev)
    (hwf : kfifo_wf dev.fifo) : kfifo_wf (dev_run t h dev cs).fifo := by
  induction cs generalizing dev with
  | nil => exact hwf
  | cons c cs ih => exact ih _ (dev_step_wf t h dev c hwf)

/-- Claim C4: in every device state reached from the initialised device by a
finite sequence of `vser_work`, `vser_read`, `vser_write`, `vser_ioctl` and
`vser_poll` steps, the queue length is between 0 and 32, both as the fifo
reports it and as the number of bytes the queue holds. -/
theorem queue_length_bounded (t : target) (h : vser_h) (heap : Nat → Nat) (calls : List dev_call) :
    0 ≤ kfifo_len (dev_run t h (vser_init heap) calls).fifo ∧
    kfifo_len (dev_run t h (vser_init heap) calls).fifo ≤ VSER_FIFO_SIZE ∧
    (kfifo_contents (dev_run t h (vser_init heap) calls).fifo).length ≤ VSER_FIFO_SIZE ∧
    kfifo_wf (dev_run t h (vser_init heap) calls).fifo := by
  have hwf := dev_run_wf t h calls (vser_init heap) (vser_init_wf heap)
  refine ⟨Nat.zero_le _, hwf.2.2.2.2, ?_, hwf⟩
  rw [kfifo_contents_length]
  exact hwf.2.2.2.2

/-! ## Vectored read: `vser_aio_read` -/

theorem vser_read_ret_le (t : target) (dev : vser_dev) (filp : file) (count : Nat)
    (env : read_env) : (vser_read t dev filp count env).ret ≤ 32 := by
  have hout : ∀ (d : vser_dev) (len fault : Nat) (b : Bool), len ≤ 32 →
      (vser_read_out d len fault b).ret ≤ 32 := by
    intro d len fault b hlen
    unfold vser_read_out copy_to_user kfifo_out kfifo_out_peek
    simp only
    split <;> omega
  unfold vser_read
  have hlen : (if count > VSER_FIFO_SIZE then VSER_FIFO_SIZE else count) ≤ 32 := by
    unfold VSER_FIFO_SIZE
    split <;> omega
  generalize (if count > VSER_FIFO_SIZE then VSER_FIFO_SIZE else count) = len at hlen
  simp only
  by_cases he : kfifo_is_empty dev.fifo = true
  · rw [if_pos he]
    by_cases hnb : filp.f_flags &&& O_NONBLOCK ≠ 0
    · rw [if_pos hnb]
      simp [EAGAIN]
    · rw [if_neg hnb]
      cases env.wait with
      | signal => simp [ERESTARTSYS]
      | woken rnd more => exact hout _ _ _ _ hlen
  · rw [if_neg he]
    exact hout _ _ _ _ hlen

theorem vser_aio_read_loop_eq (t : target) (filp : file) (iov : List iovec) (dev : vser_dev)
    (acc : Nat) (hacc : acc + 32 * iov.length < 2 ^ t.bits_per_long) :
    vser_aio_read_loop t filp iov dev acc =
      (acc + sg_total (sg_reads t filp iov dev), sg_final dev (sg_reads t filp iov dev),
        ((sg_reads t filp iov dev).filter (fun r => decide (0 ≤ r.ret))).map
          read_result.to_user) := by
  induction iov generalizing dev acc with
  | nil => simp [vser_aio_read_loop, sg_reads, sg_total, sg_final]
  | cons v rest ih =>
    rw [List.length_cons] at hacc
    have hle := vser_read_ret_le t dev filp v.iov_len v.env
    by_cases hneg : (vser_read t dev filp v.iov_len v.env).ret < 0
    · simp only [vser_aio_read_loop, sg_reads, if_pos hneg]
      have hd : decide (0 ≤ (vser_read t dev filp v.iov_len v.env).ret) = false := by
        rw [decide_eq_false_iff_not]
        omega
      simp [sg_total, sg_final, hneg, hd]
    · simp only [vser_aio_read_loop, sg_reads, if_neg hneg]
      have hmod : (acc + (vser_read t dev filp v.iov_len v.env).ret.toNat) % 2 ^ t.bits_per_long =
          acc + (vser_read t dev filp v.iov_len v.env).ret.toNat := by
        apply Nat.mod_eq_of_lt
        omega
      rw [hmod, ih _ _ (by omega)]
      have hd : decide (0 ≤ (vser_read t dev filp v.iov_len v.env).ret) = true := by
        rw [decide_eq_true_iff]
        omega
      have hfin : sg_final dev ((vser_read t dev filp v.iov_len v.env) ::
          sg_reads t filp rest (vser_read t dev filp v.iov_len v.env).dev) =
          sg_final (vser_read t dev filp v.iov_len v.env).dev
            (sg_reads t filp rest (vser_read t dev filp v.iov_len v.env).dev) := by
        unfold sg_final
        cases sg_reads t filp rest (vser_read t dev filp v.iov_len v.env).dev with
        | nil => simp
        | cons r rs =>
          rw [List.getLast?_cons_cons]
          obtain ⟨y, hy⟩ : ∃ y, (r :: rs).getLast? = some y :=
            ⟨_, List.getLast?_eq_getLast _ (List.cons_ne_nil r rs)⟩
          rw [hy]
          rfl
      rw [hfin]
      simp [sg_total, hneg, hd, Nat.add_assoc]

theorem sg_total_le (t : target) (filp : file) (iov : List iovec) (dev : vser_dev) :
    sg_total (sg_reads t filp iov dev) ≤ 32 * iov.length := by
  induction iov generalizing dev with
  | nil => simp [sg_reads, sg_total]
  | cons v rest ih =>
    have hle := vser_read_ret_le t dev filp v.iov_len v.env
    have h2 := ih (vser_read t dev filp v.iov_len v.env).dev
    rw [List.length_cons]
    by_cases hneg : (vser_read t dev filp v.iov_len v.env).ret < 0
    · simp [sg_reads, sg_total, hneg]
    · simp only [sg_reads, if_neg hneg]
      unfold sg_total at h2 ⊢
      simp only [List.map_cons, List.sum_cons, if_neg hneg]
      omega

theorem sg_reads_length_le (t : target) (filp : file) (iov : List iovec) (dev : vser_dev) :
    (sg_reads t filp iov dev).length ≤ iov.length := by
  induction iov generalizing dev with
  | nil => simp [sg_reads]
  | cons v rest ih =>
    simp only [sg_reads]
    split
    · simp
    · simp only [List.length_cons]
      have := ih (vser_read t dev filp v.iov_len v.env).dev
      omega

theorem sg_reads_dropLast (t : target) (filp : file) (iov : List iovec) (dev : vser_dev) :
    ∀ r ∈ (sg_reads t filp iov dev).dropLast, 0 ≤ r.ret := by
  induction iov generalizing dev with
  | nil => simp [sg_reads]
  | cons v rest ih =>
    by_cases hneg : (vser_read t dev filp v.iov_len v.env).ret < 0
    · simp [sg_reads, hneg]
    · simp only [sg_reads, if_neg hneg]
      intro r hr
      cases hrs : sg_reads t filp rest (vser_read t dev filp v.iov_len v.env).dev with
      | nil =>
        rw [hrs] at hr
        simp at hr
      | cons r1 rs =>
        rw [hrs, List.dropLast_cons₂, List.mem_cons] at hr
        rcases hr with rfl | hr
        · omega
        · have := ih (vser_read t dev filp v.iov_len v.env).dev
          rw [hrs] at this
          exact this r hr

/-- Claim C8, as stated, fails: a non-blocking vectored read of one segment
on an empty queue fails in `vser_read` with `-EAGAIN`, and a blocking one
whose sleep a signal ends fails with `-ERESTARTSYS`, yet `vser_aio_read`
returns `-EFAULT` in both cases, not the error of the failing read. -/
theorem vser_aio_read_error_counterexample :
    (vser_read target_unsigned dev_empty file_nonblock 4 env_signal).ret = -EAGAIN ∧
    (vser_aio_read target_unsigned dev_empty file_nonblock [sample_iovec]).1 = -EFAULT ∧
    (vser_aio_read target_unsigned dev_empty file_nonblock [sample_iovec]).1 ≠ -EAGAIN ∧
    (vser_read target_unsigned dev_empty file_block 4 env_signal).ret = -ERESTARTSYS ∧
    (vser_aio_read target_unsigned dev_empty file_block [sample_iovec]).1 = -EFAULT ∧
    (vser_aio_read target_unsigned dev_empty file_block [sample_iovec]).1 ≠ -ERESTARTSYS := by
  decide

/-- Claim C8, amended: for every list of segments (short enough for the
byte total to fit `ssize_t`) and every device state, `vser_aio_read` applies
`vser_read` to the segments in order and stops at the first segment whose
read fails; it returns the accumulated byte total when that total is greater
than 0 (even if a later segment failed), and otherwise returns `-EFAULT`,
whatever the error of the failing read was.  The device is left as the last
read left it and the caller holds the bytes of the reads that succeeded. -/
theorem vser_aio_read_total (t : target) (dev : vser_dev) (filp : file) (iov : List iovec)
    (hlen : 32 * iov.length < 2 ^ (t.bits_per_long - 1)) :
    (vser_aio_read t dev filp iov).1 =
      (if 0 < sg_total (sg_reads t filp iov dev) then
        ((sg_total (sg_reads t filp iov dev) : Nat) : Int)
      else -EFAULT) ∧
    (vser_aio_read t dev filp iov).2.1 = sg_final dev (sg_reads t filp iov dev) ∧
    (vser_aio_read t dev filp iov).2.2 =
      ((sg_reads t filp iov dev).filter (fun r => decide (0 ≤ r.ret))).map
        read_result.to_user ∧
    (∀ r ∈ (sg_reads t filp iov dev).dropLast, 0 ≤ r.ret) ∧
    (sg_reads t filp iov dev).length ≤ iov.length := by
  have hpow : 2 ^ (t.bits_per_long - 1) ≤ 2 ^ t.bits_per_long :=
    Nat.pow_le_pow_right (by decide) (Nat.sub_le _ _)
  have htot := sg_total_le t filp iov dev
  have hloop := vser_aio_read_loop_eq t filp iov dev 0 (by omega)
  rw [Nat.zero_add] at hloop
  refine ⟨?_, ?_, ?_, sg_reads_dropLast t filp iov dev, ?_⟩
  · unfold vser_aio_read
    rw [hloop]
    simp only
    by_cases h0 : sg_total (sg_reads t filp iov dev) = 0
    · rw [h0]
      simp
    · rw [if_pos h0, if_pos (Nat.pos_of_ne_zero h0)]
      unfold to_ssize
      rw [Nat.mod_eq_of_lt (by omega), if_pos (by omega)]
  · unfold vser_aio_read
    rw [hloop]
  · unfold vser_aio_read
    rw [hloop]
  · exact sg_reads_length_le t filp iov dev

/-- Witness of the amended C8: three segments of two bytes read without
blocking from a queue of three bytes; the reads return 2, 1 and `-EAGAIN`. -/
theorem vser_aio_read_total_witness :
    32 * sample_iov.length < 2 ^ (target_unsigned.bits_per_long - 1) ∧
    ((vser_aio_read target_unsigned dev_three file_nonblock sample_iov).1 =
      (if 0 < sg_total (sg_reads target_unsigned file_nonblock sample_iov dev_three) then
        ((sg_total (sg_reads target_unsigned file_nonblock sample_iov dev_three) : Nat) : Int)
      else -EFAULT) ∧
    (vser_aio_read target_unsigned dev_three file_nonblock sample_iov).2.1 =
      sg_final dev_three (sg_reads target_unsigned file_nonblock sample_iov dev_three) ∧
    (vser_aio_read target_unsigned dev_three file_nonblock sample_iov).2.2 =
      ((sg_reads target_unsigned file_nonblock sample_iov dev_three).filter
        (fun r => decide (0 ≤ r.ret))).map read_result.to_user ∧
    (∀ r ∈ (sg_reads target_unsigned file_nonblock sample_iov dev_three).dropLast, 0 ≤ r.ret) ∧
    (sg_reads target_unsigned file_nonblock sample_iov dev_three).length ≤ sample_iov.length) :=
  ⟨by decide, vser_aio_read_total target_unsigned dev_three file_nonblock sample_iov (by decide)⟩

/-! ## Control channel: `vser_ioctl` -/

theorem ioctl_get_baud_eq (h : vser_h) (dev : vser_dev) (arg : Nat) (env : ioctl_env)
    (hty : _IOC_TYPE h.VS_GET_BAUD = h.VS_MAGIC) (hne : h.VS_GET_BAUD ≠ h.VS_SET_BAUD) :
    vser_ioctl h dev h.VS_GET_BAUD arg env = { ret := 0, dev := dev, to_user := none } := by
  unfold vser_ioctl
  simp [hty, hne]

theorem ioctl_set_baud_eq (h : vser_h) (dev : vser_dev) (arg : Nat) (env : ioctl_env)
    (hty : _IOC_TYPE h.VS_SET_BAUD = h.VS_MAGIC) :
    vser_ioctl h dev h.VS_SET_BAUD arg env =
      { ret := 0, dev := { dev with baud := arg % 4294967296 }, to_user := none } := by
  unfold vser_ioctl
  simp [hty, u32]

/-- Claim C9 on the code: with the sample command codes, `VS_SET_BAUD` stores
its argument in the device, but the following `VS_GET_BAUD` returns 0, writes
nothing to the caller's memory and changes nothing, for every baud value and
every argument: its result is the same after setting 9600 as on the
initialised device with its default 115200, so no baud value reaches the
caller. -/
theorem vser_ioctl_get_baud_delivers_nothing :
    (∀ (dev : vser_dev) (b arg : Nat) (e1 e2 : ioctl_env),
      (vser_ioctl sample_h dev sample_h.VS_SET_BAUD b e1).ret = 0 ∧
      (vser_ioctl sample_h dev sample_h.VS_SET_BAUD b e1).dev.baud = b % 4294967296 ∧
      vser_ioctl sample_h (vser_ioctl sample_h dev sample_h.VS_SET_BAUD b e1).dev
          sample_h.VS_GET_BAUD arg e2 =
        { ret := 0, dev := (vser_ioctl sample_h dev sample_h.VS_SET_BAUD b e1).dev,
          to_user := none }) ∧
    (vser_ioctl sample_h (vser_init (fun _ => 0)) sample_h.VS_SET_BAUD 9600 env_ioctl).dev.baud =
      9600 ∧
    (vser_ioctl sample_h
      (vser_ioctl sample_h (vser_init (fun _ => 0)) sample_h.VS_SET_BAUD 9600 env_ioctl).dev
      sample_h.VS_GET_BAUD 0 env_ioctl).ret = 0 ∧
    (vser_ioctl sample_h
      (vser_ioctl sample_h (vser_init (fun _ => 0)) sample_h.VS_SET_BAUD 9600 env_ioctl).dev
      sample_h.VS_GET_BAUD 0 env_ioctl).to_user = none ∧
    (vser_init (fun _ => 0)).baud = 115200 ∧
    (vser_ioctl sample_h (vser_init (fun _ => 0)) sample_h.VS_GET_BAUD 0 env_ioctl).ret = 0 ∧
    (vser_ioctl sample_h (vser_init (fun _ => 0)) sample_h.VS_GET_BAUD 0 env_ioctl).to_user =
      none ∧
    (vser_ioctl sample_h (vser_init (fun _ => 0)) sample_h.VS_GET_FFMT 0 env_ioctl).to_user =
      some { datab := 8, parity := 0, stopb := 1 } := by
  refine ⟨?_, by decide, by decide, by decide, by decide, by decide, by decide, by decide⟩
  intro dev b arg e1 e2
  have hs := ioctl_set_baud_eq sample_h dev b e1 (by decide)
  have hg := ioctl_get_baud_eq sample_h (vser_ioctl sample_h dev sample_h.VS_SET_BAUD b e1).dev
    arg e2 (by decide) (by decide)
  rw [hg, hs]
  exact ⟨rfl, rfl, rfl⟩

end Vser
